import Mathlib

/-!
# Frontend gateway (conference-application/frontend-go/frontend.go)

A shallow embedding of the request proxy, the event receiver, the event
readers and the feature handler of `frontend.go`, followed by the properties
proved about them.

Conventions of the embedding:

* A Go `string` is a Lean `String`.  The library functions used by the source
  (`strings.HasPrefix`, `strings.Replace`, `fmt.Sprintf("%s%s", ..)`) compare
  and copy text element by element; they are written here over the list of
  characters of the string, in the shape of the Go library code (`Index`,
  the loop of `Count`, the loop of `Replace`).  On UTF-8 text a match of
  bytes is a match of characters, so positions and results agree.
* Package-level state (`var events = []Event{}`) is passed explicitly.
* Calls that leave the program (`http.DefaultClient.Do`, the CloudEvents SDK,
  `encoding/json`, `os.LookupEnv`) are parameters of the embedding; every
  theorem holds for all of their possible behaviours.
* A Go run-time panic (nil pointer dereference) is the `Except.error` result.
* Log output (`log.Printf`, `fmt.Println`, `httputil.DumpRequest`) has no
  effect on the response or on the state and is left out.
-/

namespace Frontend

/-! ## Library: package `strings` -/

/-- Go `strings.HasPrefix(s, prefix)`: reports whether `s` begins with `prefix`. -/
def HasPrefix (s pre : String) : Bool :=
  pre.data.isPrefixOf s.data

/-- Position of the first instance of `substr` in the text, `none` for Go's `-1`. -/
def indexList (substr : List Char) : List Char → Option Nat
  | [] => if substr.isPrefixOf [] then some 0 else none
  | c :: cs =>
    if substr.isPrefixOf (c :: cs) then some 0
    else (indexList substr cs).map (· + 1)

/-- Go `strings.Index(s, substr)`: index of the first instance of `substr` in
`s`; `none` stands for the result `-1`. -/
def Index (s substr : String) : Option Nat :=
  indexList substr.data s.data

/-- The counting loop of Go `strings.Count` for a non-empty `substr`:
`for { i := Index(s, substr); if i == -1 { return n }; n++; s = s[i+len(substr):] }`.
The first argument bounds the number of iterations. -/
def countLoop (substr : List Char) : Nat → List Char → Nat
  | 0, _ => 0
  | fuel + 1, s =>
    match indexList substr s with
    | none => 0
    | some i => 1 + countLoop substr fuel (s.drop (i + substr.length))

/-- Go `strings.Count(s, substr)`: the number of non-overlapping instances of
`substr` in `s`; for an empty `substr` it is one more than the number of
characters of `s`.  Every iteration of the loop consumes at least one
character, so `s.length` iterations are enough (`countLoop_fuel`). -/
def countList (substr s : List Char) : Nat :=
  if substr = [] then s.length + 1 else countLoop substr s.length s

/-- The replacement loop of Go `strings.Replace` for a non-empty `old`:
each of the `n` iterations copies the text up to the next instance of `old`,
writes `new` and continues behind the instance; what is left is copied. -/
def replaceLoop (old new : List Char) : Nat → List Char → List Char
  | 0, s => s
  | n + 1, s =>
    match indexList old s with
    | none => s
    | some j => s.take j ++ new ++ replaceLoop old new n (s.drop (j + old.length))

/-- The replacement loop of Go `strings.Replace` for an empty `old`, after the
first iteration (which writes `new` in front of the text): every further
iteration copies one character and writes `new` behind it. -/
def replaceEmptyLoop (new : List Char) : Nat → List Char → List Char
  | 0, s => s
  | _ + 1, [] => []
  | n + 1, c :: cs => c :: (new ++ replaceEmptyLoop new n cs)

/-- Go `strings.Replace(s, old, new, n)` on character lists: a copy of `s` with
the first `n` non-overlapping instances of `old` replaced by `new`; for
`n < 0` there is no limit on the number of replacements. -/
def replaceList (s old new : List Char) (n : Int) : List Char :=
  if old = new ∨ n = 0 then s
  else
    let m := countList old s
    if m = 0 then s
    else
      let k := if n < 0 ∨ (m : Int) < n then m else n.toNat
      if old = [] then new ++ replaceEmptyLoop new (k - 1) s
      else replaceLoop old new k s

/-- Go `strings.Replace` on strings. -/
def Replace (s old new : String) (n : Int) : String :=
  ⟨replaceList s.data old.data new.data n⟩

/-! ## The target URL of `proxyRequest` (lines 139-146) -/

/-- Lines 139-142 of `proxyRequest`: `url := fmt.Sprintf("%s%s", serviceUrl,
r.RequestURI)`, and `"http://"` in front of it when `url` does not have the
prefix `"http"`. -/
def composeURL (serviceUrl requestURI : String) : String :=
  let url := serviceUrl ++ requestURI
  if !HasPrefix url "http" then "http://" ++ url else url

/-- Lines 139-146 of `proxyRequest`: the URL the request is forwarded to,
`strings.Replace(url, serviceName+"/", "", -1)` of the composed URL. -/
def targetURL (serviceName serviceUrl requestURI : String) : String :=
  Replace (composeURL serviceUrl requestURI) (serviceName ++ "/") "" (-1)

/-- The rewrite as the specification words it: only the first instance of
`old` is removed from the URL, every later instance is kept. -/
def removeFirstOccurrence (url old : String) : String :=
  match Index url old with
  | none => url
  | some j => ⟨url.data.take j ++ url.data.drop (j + old.data.length)⟩

/-- Number of positions of the text at which `pat` occurs (instances may
overlap). -/
def occurrencesList (pat : List Char) : List Char → Nat
  | [] => if pat.isPrefixOf [] then 1 else 0
  | c :: cs => (if pat.isPrefixOf (c :: cs) then 1 else 0) + occurrencesList pat cs

/-- Number of occurrences of `pat` in `text`. -/
def occurrences (text pat : String) : Nat :=
  occurrencesList pat.data text.data

/-- The text `p0 ++ sep ++ p1 ++ sep ++ .. ++ pk ++ sep ++ last`: every piece
followed by the separator, then `last`.  With the empty separator it is the
concatenation of the pieces and `last`. -/
def joinWith (sep : String) (pieces : List String) (last : String) : String :=
  pieces.foldr (fun p acc => p ++ sep ++ acc) last

/-! ## Data model (lines 63-74) -/

/-- The Go struct `Event` (the field `Type` is written `Type_`). -/
structure Event where
  Id : String
  Payload : String
  Type_ : String
deriving DecidableEq, Repr

/-- The zero value of `Event`, what `var event Event` holds. -/
def Event.zero : Event := ⟨"", "", ""⟩

/-- The Go struct `Features`. -/
structure Features where
  DebugEnabled : String
  GenerateProposal : String
deriving DecidableEq, Repr

/-- A byte slice. -/
abbrev Bytes := List UInt8

/-- Go `http.Header`, a `map[string][]string`: a finite list of bindings in
which no key occurs twice. -/
structure HTTPHeader where
  entries : List (String × List String)
  nodupKeys : (entries.map Prod.fst).Nodup

/-- Go `make(http.Header)`: the empty map. -/
def HTTPHeader.make : HTTPHeader := ⟨[], List.nodup_nil⟩

/-- Go map lookup `h[k]`; `none` when the key is absent. -/
def HTTPHeader.get (h : HTTPHeader) (k : String) : Option (List String) :=
  h.entries.lookup k

/-- Go map assignment `h[k] = v`. -/
def HTTPHeader.assign (h : HTTPHeader) (k : String) (v : List String) : HTTPHeader :=
  ⟨(k, v) :: h.entries.filter (fun e => e.1 ≠ k), by
    simp only [List.map_cons, List.nodup_cons]
    refine ⟨?_, ?_⟩
    · simp [List.mem_map, List.mem_filter]
    · exact h.nodupKeys.sublist (List.filter_sublist h.entries |>.map Prod.fst)⟩

/-- The loop `for h, val := range src { dst[h] = val }` (lines 157-159 and
174-176); the bindings of `src` are visited in the order of `src.entries`. -/
def copyHeader (src dst : HTTPHeader) : HTTPHeader :=
  src.entries.foldl (fun acc e => acc.assign e.1 e.2) dst

/-- The values handed to `json.Marshal` by the handlers. -/
inductive JSONValue where
  | event (e : Event)
  | events (es : List Event)
  | features (f : Features)
deriving DecidableEq, Repr

/-- The body written to the `http.ResponseWriter`: the JSON encoding of a
value, a line of text, or bytes relayed from a backend. -/
inductive ResponseBody where
  | json (v : JSONValue)
  | text (s : String)
  | raw (b : Bytes)
deriving DecidableEq, Repr

/-- What a handler writes to its `http.ResponseWriter`. -/
structure Response where
  StatusCode : Nat
  Header : HTTPHeader
  Body : ResponseBody

/-- An inbound `*http.Request` as the handlers use it; `Body` is the result of
`io.ReadAll(r.Body)`. -/
structure Request where
  Method : String
  RequestURI : String
  Header : HTTPHeader
  Body : Except String Bytes

/-- The outbound `*http.Request` built by `proxyRequest`. -/
structure ProxyReq where
  Method : String
  URL : String
  Header : HTTPHeader
  Body : Bytes

/-- The `*http.Response` of a backend; `Body` is the result of
`io.ReadAll(resp.Body)`. -/
structure BackendResponse where
  StatusCode : Nat
  Header : HTTPHeader
  Body : Except String Bytes

/-- The CloudEvents `event.Event`; the handler reads its field `DataEncoded`. -/
structure CloudEvent where
  DataEncoded : Bytes
deriving DecidableEq, Repr

/-- Everything outside the program that its handlers consult. -/
structure World where
  /-- Go `os.LookupEnv` at start-up: `none` when the key is not set. -/
  LookupEnv : String → Option String
  /-- The checks of `http.NewRequest` on method and URL: `some err` when it fails. -/
  newRequestError : String → String → Option String
  /-- Go `http.DefaultClient.Do`: the error is a transport failure. -/
  Do : ProxyReq → Except String BackendResponse
  /-- The call `cloudevents.NewEventFromHTTPRequest(r)`: a pointer (`none` is `nil`)
  and an error (`none` is `nil`).  The SDK returns the nil pointer together with
  every error (unknown encoding, malformed structured or binary event). -/
  NewEventFromHTTPRequest : Request → Option CloudEvent × Option String
  /-- The well-formedness scan that `json.Unmarshal` runs first: `some err` for
  data that is not valid JSON. -/
  checkValid : Bytes → Option String
  /-- The decoding pass of `json.Unmarshal` on well-formed data into an `Event`. -/
  decodeEvent : Bytes → Event → Event × Option String

/-! ## Library: `net/http`, `encoding/json` -/

/-- Go `http.Error(w, error, code)`: sets the two headers, writes the status
code and prints the error text followed by a newline. -/
def httpError (w : HTTPHeader) (error : String) (code : Nat) : Response :=
  { StatusCode := code
    Header := (w.assign "Content-Type" ["text/plain; charset=utf-8"]).assign
      "X-Content-Type-Options" ["nosniff"]
    Body := .text (error ++ "\n") }

/-- Go `http.NewRequest(method, url, body)`: an empty method means `GET`; the
request is refused when the method or the URL is not valid. -/
def NewRequest (w : World) (method url : String) (body : Bytes) : Except String ProxyReq :=
  let method := if method = "" then "GET" else method
  match w.newRequestError method url with
  | some err => .error err
  | none => .ok { Method := method, URL := url, Header := HTTPHeader.make, Body := body }

/-- Go `json.Unmarshal(data, &v)` for `v : Event`: data that is not valid JSON
is refused before anything is stored in `v`. -/
def Unmarshal (w : World) (data : Bytes) (v : Event) : Event × Option String :=
  match w.checkValid data with
  | some err => (v, some err)
  | none => w.decodeEvent data v

/-! ## Configuration (lines 22-45, 197-204) -/

/-- The function `getEnv`. -/
def getEnv (w : World) (key fallback : String) : String :=
  match w.LookupEnv key with
  | some value => value
  | none => fallback

def AgendaServiceUrl (w : World) : String :=
  getEnv w "AGENDA_SERVICE_URL" "http://agenda-service.default.svc.cluster.local"

def C4pServiceUrl (w : World) : String :=
  getEnv w "C4P_SERVICE_URL" "http://c4p-service.default.svc.cluster.local"

def NotificationsServiceUrl (w : World) : String :=
  getEnv w "NOTIFICATIONS_SERVICE_URL" "http://notifications-service.default.svc.cluster.local"

def FeatureGenerateProposal (w : World) : String :=
  getEnv w "FEATURE_DEBUG_ENABLED" "GENERATE"

def FeatureDebugEnabled (w : World) : String :=
  getEnv w "FEATURE_DEBUG_ENABLED" "false"

/-! ## Handlers -/

/-- The function `respondWithJSON` (lines 189-195). -/
def respondWithJSON (code : Nat) (payload : JSONValue) : Response :=
  { StatusCode := code
    Header := HTTPHeader.make.assign "Content-Type" ["application/json"]
    Body := .json payload }

/-- The function `featureHandler` (lines 100-106). -/
def featureHandler (w : World) : Response :=
  respondWithJSON 200 (.features
    { DebugEnabled := FeatureDebugEnabled w, GenerateProposal := FeatureGenerateProposal w })

/-- The function `eventsHandler` (lines 108-110). -/
def eventsHandler (events : List Event) : Response :=
  respondWithJSON 200 (.events events)

/-- The method `GetEventsWithPost` (lines 216-218). -/
def GetEventsWithPost (events : List Event) : Response :=
  respondWithJSON 200 (.events events)

/-- The method `GetEventsWithGet` (lines 221-223). -/
def GetEventsWithGet (events : List Event) : Response :=
  respondWithJSON 200 (.events events)

/-- The function `proxyRequest` (lines 124-187): the response written to the
caller and the list of requests handed to `http.DefaultClient.Do`.  A failure
of the last `w.Write` (line 182), after status and headers have gone out, is
not part of the model. -/
def proxyRequest (w : World) (serviceName serviceUrl : String) (r : Request) :
    Response × List ProxyReq :=
  match r.Body with
  | .error err => (httpError HTTPHeader.make err 500, [])
  | .ok body =>
    let url := targetURL serviceName serviceUrl r.RequestURI
    match NewRequest w r.Method url body with
    | .error err => (httpError HTTPHeader.make err 500, [])
    | .ok proxyReq =>
      let proxyReq := { proxyReq with Header := copyHeader r.Header HTTPHeader.make }
      match w.Do proxyReq with
      | .error err => (httpError HTTPHeader.make err 502, [proxyReq])
      | .ok resp =>
        match resp.Body with
        | .error err => (httpError HTTPHeader.make err 500, [proxyReq])
        | .ok body =>
          ({ StatusCode := resp.StatusCode
             Header := copyHeader resp.Header HTTPHeader.make
             Body := .raw body }, [proxyReq])

/-- The function `agendaServiceHandler` (lines 112-114). -/
def agendaServiceHandler (w : World) (r : Request) : Response × List ProxyReq :=
  proxyRequest w "api/agenda" (AgendaServiceUrl w) r

/-- The function `c4PServiceHandler` (lines 116-118). -/
def c4PServiceHandler (w : World) (r : Request) : Response × List ProxyReq :=
  proxyRequest w "api/c4p" (C4pServiceUrl w) r

/-- The function `notificationServiceHandler` (lines 120-122). -/
def notificationServiceHandler (w : World) (r : Request) : Response × List ProxyReq :=
  proxyRequest w "api/notifications" (NotificationsServiceUrl w) r

/-- The method `NewEvents` (lines 275-291): the new value of `events` and the
response.  Both errors are only logged.  `cloudEvent.String()` (line 281) and
`cloudEvent.DataEncoded` (line 283) dereference the pointer returned by the
SDK; on a nil pointer the handler panics before line 289. -/
def NewEvents (w : World) (events : List Event) (r : Request) :
    Except String (List Event × Response) :=
  let (cloudEvent, _err) := w.NewEventFromHTTPRequest r
  match cloudEvent with
  | none => .error "runtime error: invalid memory address or nil pointer dereference"
  | some ce =>
    let (event, _err) := Unmarshal w ce.DataEncoded Event.zero
    .ok (events ++ [event], respondWithJSON 200 (.event event))

/-! ## The gateway as a state machine over `events` -/

/-- One call of a handler of the gateway. -/
inductive Call where
  | featureHandler (r : Request)
  | eventsHandler (r : Request)
  | GetEventsWithPost (r : Request)
  | GetEventsWithGet (r : Request)
  | NewEvents (r : Request)
  | agendaServiceHandler (r : Request)
  | c4PServiceHandler (r : Request)
  | notificationServiceHandler (r : Request)

/-- What one call leaves behind: the value of `events`, the response (`none`
when the handler panicked and the server dropped the connection) and the
requests sent to backends. -/
structure Served where
  events : List Event
  response : Option Response
  outbound : List ProxyReq

/-- Serving one call in the state `events`. -/
def serve (w : World) (events : List Event) : Call → Served
  | .featureHandler _ => ⟨events, some (featureHandler w), []⟩
  | .eventsHandler _ => ⟨events, some (eventsHandler events), []⟩
  | .GetEventsWithPost _ => ⟨events, some (GetEventsWithPost events), []⟩
  | .GetEventsWithGet _ => ⟨events, some (GetEventsWithGet events), []⟩
  | .NewEvents r =>
    match NewEvents w events r with
    | .ok (events', resp) => ⟨events', some resp, []⟩
    | .error _ => ⟨events, none, []⟩
  | .agendaServiceHandler r =>
    let (resp, out) := agendaServiceHandler w r
    ⟨events, some resp, out⟩
  | .c4PServiceHandler r =>
    let (resp, out) := c4PServiceHandler w r
    ⟨events, some resp, out⟩
  | .notificationServiceHandler r =>
    let (resp, out) := notificationServiceHandler w r
    ⟨events, some resp, out⟩

/-- The value of `events` after a sequence of calls served one after another. -/
def run (w : World) (events : List Event) (calls : List Call) : List Event :=
  calls.foldl (fun evs c => (serve w evs c).events) events

/-- The event a receive call appends, read off the call and the world alone:
`none` for every other call and for a receive call that panics. -/
def producedEvent (w : World) : Call → Option Event
  | .NewEvents r =>
    match (w.NewEventFromHTTPRequest r).1 with
    | none => none
    | some ce => some (Unmarshal w ce.DataEncoded Event.zero).1
  | _ => none

/-! ## Worked inputs -/

/-- A world for worked inputs: no environment variable is set; every outbound
request is well-formed; no backend can be reached; the SDK takes a request
with the header `Ce-Specversion` as a binary-mode event whose data is the
request body and returns a nil event and an error for any other request; data
counts as valid JSON when it begins with an opening brace; the decoding pass
stores one fixed event. -/
def sampleWorld : World where
  LookupEnv := fun _ => none
  newRequestError := fun _ _ => none
  Do := fun _ => .error "dial tcp: connection refused"
  NewEventFromHTTPRequest := fun r =>
    match r.Header.get "Ce-Specversion", r.Body with
    | some _, .ok data => (some ⟨data⟩, none)
    | _, _ => (none, some "unknown Message encoding")
  checkValid := fun data =>
    if data.head? = some 123 then none
    else some "invalid character looking for beginning of value"
  decodeEvent := fun _ v => ({ v with Id := "42", Payload := "talk", Type_ := "proposal" }, none)

/-- The sample world with `FEATURE_DEBUG_ENABLED` set to `v`. -/
def sampleWorldWithDebug (v : String) : World :=
  { sampleWorld with
    LookupEnv := fun key => if key = "FEATURE_DEBUG_ENABLED" then some v else none }

/-- A binary-mode CloudEvents request with the given data. -/
def cloudEventRequest (data : Bytes) : Request where
  Method := "POST"
  RequestURI := "/api/events"
  Header := HTTPHeader.make.assign "Ce-Specversion" ["1.0"]
  Body := .ok data

/-- A request that carries no CloudEvents header at all. -/
def plainRequest : Request where
  Method := "POST"
  RequestURI := "/api/events"
  Header := HTTPHeader.make.assign "Content-Type" ["text/plain"]
  Body := .ok [104, 105]

/-- A request for the agenda backend. -/
def agendaRequest : Request where
  Method := "GET"
  RequestURI := "/api/agenda/sessions"
  Header := (HTTPHeader.make.assign "Accept" ["application/json"]).assign
    "Connection" ["keep-alive"]
  Body := .ok []

end Frontend

/-! # Properties -/

namespace Frontend

/-! ## Text lemmas -/

theorem isPrefixOf_nil_eq_false {pat : List Char} (hpat : pat ≠ []) :
    pat.isPrefixOf [] = false := by
  cases pat with
  | nil => exact absurd rfl hpat
  | cons a as => rfl

theorem indexList_nil {pat : List Char} (hpat : pat ≠ []) : indexList pat [] = none := by
  simp [indexList, isPrefixOf_nil_eq_false hpat]

theorem occurrencesList_le_append (pat p t : List Char) :
    occurrencesList pat t ≤ occurrencesList pat (p ++ t) := by
  induction p with
  | nil => simp
  | cons c cs ih =>
    rw [List.cons_append, occurrencesList]
    omega

theorem indexList_eq_none_of_occurrences {pat : List Char} :
    ∀ t : List Char, occurrencesList pat t = 0 → indexList pat t = none := by
  intro t
  induction t with
  | nil =>
    intro h
    simp only [occurrencesList] at h
    simp only [indexList]
    split at h
    · omega
    · simp [*]
  | cons c cs ih =>
    intro h
    simp only [occurrencesList] at h
    have hc : pat.isPrefixOf (c :: cs) = false := by
      cases hp : pat.isPrefixOf (c :: cs) with
      | true => simp [hp] at h
      | false => rfl
    have hcs : occurrencesList pat cs = 0 := by omega
    simp [indexList, hc, ih hcs]

theorem indexList_append_of_occurrences {pat : List Char} (y : List Char)
    (hy : pat.isPrefixOf y = true) :
    ∀ x : List Char, occurrencesList pat (x ++ y) = occurrencesList pat y →
      indexList pat (x ++ y) = some x.length := by
  intro x
  induction x with
  | nil =>
    intro _
    cases y with
    | nil => simp [indexList, hy]
    | cons c cs => simp [indexList, hy]
  | cons c cs ih =>
    intro h
    simp only [List.cons_append, occurrencesList] at h
    have hle := occurrencesList_le_append pat cs y
    have hc : pat.isPrefixOf (c :: (cs ++ y)) = false := by
      cases hp : pat.isPrefixOf (c :: (cs ++ y)) with
      | true => simp [hp] at h; omega
      | false => rfl
    have hcs : occurrencesList pat (cs ++ y) = occurrencesList pat y := by
      simp [hc] at h; exact h
    simp [indexList, hc, ih hcs]

theorem countLoop_of_index_none {pat : List Char} {s : List Char}
    (h : indexList pat s = none) (fuel : Nat) : countLoop pat fuel s = 0 := by
  cases fuel with
  | zero => rfl
  | succ f => simp [countLoop, h]

/-- The bound on the iterations of the counting loop is never reached: with
at least `s.length` iterations allowed the loop returns the same count. -/
theorem countLoop_fuel {pat : List Char} (hpat : pat ≠ []) :
    ∀ (fuel : Nat) (s : List Char), s.length ≤ fuel →
      countLoop pat fuel s = countLoop pat s.length s := by
  intro fuel
  induction fuel using Nat.strong_induction_on with
  | _ fuel ih =>
    intro s hs
    cases hidx : indexList pat s with
    | none => rw [countLoop_of_index_none hidx, countLoop_of_index_none hidx]
    | some i =>
      have hpos : 0 < pat.length := List.length_pos.mpr hpat
      cases s with
      | nil => rw [indexList_nil hpat] at hidx; cases hidx
      | cons c cs =>
        cases fuel with
        | zero => simp at hs
        | succ f =>
          have hlen : ((c :: cs).drop (i + pat.length)).length ≤ cs.length := by
            simp only [List.length_drop, List.length_cons]; omega
          have hf : cs.length ≤ f := by simpa using hs
          simp only [List.length_cons, countLoop, hidx]
          rw [ih f (Nat.lt_succ_self f) _ (le_trans hlen hf)]
          by_cases hcs : cs.length = f
          · subst hcs
            rw [ih cs.length (Nat.lt_succ_self _) _ hlen]
          · rw [ih cs.length (by omega) _ hlen]

/-- Unlimited replacement by the empty text, when `old` does not occur. -/
theorem replaceList_all_of_index_none {old : List Char} (hold : old ≠ []) (s : List Char)
    (h : indexList old s = none) : replaceList s old [] (-1) = s := by
  simp [replaceList, hold, countList, countLoop_of_index_none h]

/-- Unlimited replacement by the empty text: the first instance of `old` is
cut out and the text behind it is rewritten in the same way. -/
theorem replaceList_all_of_index_some {old : List Char} (hold : old ≠ []) (s : List Char)
    (j : Nat) (h : indexList old s = some j) :
    replaceList s old [] (-1)
      = s.take j ++ replaceList (s.drop (j + old.length)) old [] (-1) := by
  have hpos : 0 < old.length := List.length_pos.mpr hold
  cases s with
  | nil => rw [indexList_nil hold] at h; cases h
  | cons c cs =>
    have hlen : ((c :: cs).drop (j + old.length)).length ≤ cs.length := by
      simp only [List.length_drop, List.length_cons]; omega
    have hcount : countList old (c :: cs)
        = 1 + countList old ((c :: cs).drop (j + old.length)) := by
      simp only [countList, if_neg hold, List.length_cons, countLoop, h]
      rw [countLoop_fuel hold _ _ hlen]
    have hrest : replaceList ((c :: cs).drop (j + old.length)) old [] (-1)
        = replaceLoop old [] (countList old ((c :: cs).drop (j + old.length)))
            ((c :: cs).drop (j + old.length)) := by
      simp only [replaceList]
      by_cases hm : countList old ((c :: cs).drop (j + old.length)) = 0
      · simp [hold, hm, replaceLoop]
      · simp [hold, hm]
    rw [hrest]
    simp only [replaceList]
    rw [hcount]
    simp [hold, replaceLoop, h, Nat.add_comm 1]

theorem hasPrefix_append (b u pre : String) (h : HasPrefix b pre = true) :
    HasPrefix (b ++ u) pre = true := by
  simp only [HasPrefix, String.data_append] at *
  rw [List.isPrefixOf_iff_prefix] at *
  exact h.trans (List.prefix_append _ _)

theorem composeURL_of_hasPrefix (b u : String) (h : HasPrefix b "http" = true) :
    composeURL b u = b ++ u := by
  simp [composeURL, hasPrefix_append b u "http" h]

theorem occurrencesList_self_append {pat : List Char} (hpat : pat ≠ []) (r : List Char) :
    1 + occurrencesList pat r ≤ occurrencesList pat (pat ++ r) := by
  cases pat with
  | nil => exact absurd rfl hpat
  | cons a as =>
    have hp : (a :: as).isPrefixOf (a :: (as ++ r)) = true := by
      rw [List.isPrefixOf_iff_prefix]
      exact List.prefix_append (a :: as) r
    have hle := occurrencesList_le_append (a :: as) as r
    rw [List.cons_append, occurrencesList, if_pos hp]
    omega

/-- When `pat` occurs exactly once in `x ++ pat ++ r`, unlimited replacement
by the empty text gives `x ++ r`. -/
theorem replaceList_single_occurrence {pat : List Char} (hpat : pat ≠ []) (x r : List Char)
    (hocc : occurrencesList pat (x ++ (pat ++ r)) = 1) :
    replaceList (x ++ (pat ++ r)) pat [] (-1) = x ++ r := by
  have h1 := occurrencesList_self_append hpat r
  have h2 := occurrencesList_le_append pat x (pat ++ r)
  have hr : occurrencesList pat r = 0 := by omega
  have hy : occurrencesList pat (x ++ (pat ++ r)) = occurrencesList pat (pat ++ r) := by omega
  have hpre : pat.isPrefixOf (pat ++ r) = true := by
    rw [List.isPrefixOf_iff_prefix]
    exact List.prefix_append pat r
  have hidx := indexList_append_of_occurrences (pat ++ r) hpre x hy
  rw [replaceList_all_of_index_some hpat _ _ hidx]
  have hdrop : (x ++ (pat ++ r)).drop (x.length + pat.length) = r := by
    rw [← List.append_assoc, ← List.length_append, List.drop_left]
  rw [hdrop, List.take_left,
    replaceList_all_of_index_none hpat r (indexList_eq_none_of_occurrences r hr)]

theorem composeURL_eq (b u : String) :
    composeURL b u
      = if HasPrefix (b ++ u) "http" = true then b ++ u else "http://" ++ (b ++ u) := by
  unfold composeURL
  by_cases h : HasPrefix (b ++ u) "http" = true <;> simp [h]

theorem NewRequest_ok {w : World} {method url : String} {body : Bytes} {q : ProxyReq}
    (h : NewRequest w method url body = .ok q) :
    q = { Method := if method = "" then "GET" else method, URL := url,
          Header := HTTPHeader.make, Body := body } := by
  unfold NewRequest at h
  simp only at h
  cases hE : w.newRequestError (if method = "" then "GET" else method) url with
  | some err => rw [hE] at h; cases h
  | none =>
    rw [hE] at h
    injection h with h
    exact h.symm

theorem serviceName_slash_ne_nil (s : String) : (s ++ "/").data ≠ [] := by
  simp [String.data_append]

/-! ## Text cut at the instances of a pattern -/

/-- The position returned by `indexList` is the position of an instance that
lies inside the text. -/
theorem indexList_bound {old : List Char} :
    ∀ (t : List Char) (j : Nat), indexList old t = some j →
      old <+: t.drop j ∧ j + old.length ≤ t.length := by
  intro t
  induction t with
  | nil =>
    intro j h
    simp only [indexList] at h
    split at h
    · rename_i hp
      cases h
      have hpre := List.isPrefixOf_iff_prefix.mp hp
      exact ⟨hpre, by simpa using hpre.length_le⟩
    · cases h
  | cons c cs ih =>
    intro j h
    simp only [indexList] at h
    split at h
    · rename_i hp
      cases h
      have hpre := List.isPrefixOf_iff_prefix.mp hp
      exact ⟨hpre, by simpa using hpre.length_le⟩
    · cases hcs : indexList old cs with
      | none => rw [hcs] at h; cases h
      | some j' =>
        rw [hcs] at h
        simp only [Option.map_some', Option.some.injEq] at h
        subst h
        obtain ⟨h1, h2⟩ := ih j' hcs
        exact ⟨h1, by simp only [List.length_cons]; omega⟩

/-- Text behind the first instance does not move it. -/
theorem indexList_append {old : List Char} (rest : List Char) :
    ∀ (a : List Char) (j : Nat), indexList old a = some j →
      indexList old (a ++ rest) = some j := by
  intro a
  induction a with
  | nil =>
    intro j h
    simp only [indexList] at h
    split at h
    · rename_i hp
      cases h
      have hnil : old = [] := List.prefix_nil.mp (List.isPrefixOf_iff_prefix.mp hp)
      subst hnil
      cases rest <;> simp [indexList]
    · cases h
  | cons c cs ih =>
    intro j h
    simp only [indexList] at h
    split at h
    · rename_i hp
      cases h
      have hpre : old <+: c :: (cs ++ rest) :=
        (List.isPrefixOf_iff_prefix.mp hp).trans (List.prefix_append (c :: cs) rest)
      simp [indexList, List.isPrefixOf_iff_prefix.mpr hpre]
    · rename_i hp
      cases hcs : indexList old cs with
      | none => rw [hcs] at h; cases h
      | some j' =>
        rw [hcs] at h
        simp only [Option.map_some', Option.some.injEq] at h
        subst h
        have hlen := (indexList_bound cs j' hcs).2
        have hnot : old.isPrefixOf (c :: (cs ++ rest)) = false := by
          cases hq : old.isPrefixOf (c :: (cs ++ rest)) with
          | false => rfl
          | true =>
            exfalso
            apply hp
            rw [List.isPrefixOf_iff_prefix] at hq ⊢
            exact List.prefix_of_prefix_length_le hq (List.prefix_append (c :: cs) rest)
              (by simp only [List.length_cons]; omega)
        simp [indexList, hnot, ih j' hcs]

/-- The text is the part before the first instance, the instance, and the
part behind it. -/
theorem indexList_split {old : List Char} (t : List Char) (j : Nat)
    (h : indexList old t = some j) :
    t = t.take j ++ old ++ t.drop (j + old.length) := by
  obtain ⟨⟨r, hr⟩, _⟩ := indexList_bound t j h
  have hdrop : t.drop (j + old.length) = r := by
    rw [← List.drop_drop, ← hr, List.drop_left]
  rw [hdrop, List.append_assoc, hr, List.take_append_drop]

/-- The first instance is also the first instance of the text cut off behind it. -/
theorem indexList_take {old : List Char} :
    ∀ (t : List Char) (j : Nat), indexList old t = some j →
      indexList old (t.take j ++ old) = some (t.take j).length := by
  intro t
  induction t with
  | nil =>
    intro j h
    have hb := (indexList_bound [] j h).2
    have hnil : old = [] := by
      cases old with
      | nil => rfl
      | cons a as => simp at hb
    subst hnil
    simp [indexList]
  | cons c cs ih =>
    intro j h
    have hsplit := indexList_split (c :: cs) j h
    simp only [indexList] at h
    split at h
    · rename_i hp
      cases h
      cases old with
      | nil => simp [indexList]
      | cons a as =>
        have hself : (a :: as).isPrefixOf (a :: as) = true :=
          List.isPrefixOf_iff_prefix.mpr (List.prefix_refl _)
        simp [indexList, hself]
    · rename_i hp
      cases hcs : indexList old cs with
      | none => rw [hcs] at h; cases h
      | some j' =>
        rw [hcs] at h
        simp only [Option.map_some', Option.some.injEq] at h
        subst h
        have hcut : c :: (cs.take j' ++ old) <+: c :: cs :=
          ⟨(c :: cs).drop (j' + 1 + old.length), by
            have := hsplit
            simp only [List.take_succ_cons, List.cons_append] at this
            simpa [List.append_assoc] using this.symm⟩
        have hnot : old.isPrefixOf (c :: (cs.take j' ++ old)) = false := by
          cases hq : old.isPrefixOf (c :: (cs.take j' ++ old)) with
          | false => rfl
          | true =>
            exfalso
            apply hp
            rw [List.isPrefixOf_iff_prefix] at hq ⊢
            exact hq.trans hcut
        simp [indexList, hnot, ih j' hcs]

/-- Unlimited replacement by the empty text on a text that is cut at the
instances found from the left: what is left is the pieces without the
instances between them. -/
theorem replaceList_pieces {old : List Char} (hold : old ≠ []) (l : List Char)
    (hl : indexList old l = none) :
    ∀ ps : List (List Char), (∀ p ∈ ps, indexList old (p ++ old) = some p.length) →
      replaceList (ps.foldr (fun p acc => p ++ old ++ acc) l) old [] (-1)
        = ps.foldr (fun p acc => p ++ acc) l := by
  intro ps
  induction ps with
  | nil => intro _; exact replaceList_all_of_index_none hold l hl
  | cons p ps ih =>
    intro hps
    have hp := hps p (List.mem_cons_self p ps)
    have hrest := ih (fun q hq => hps q (List.mem_cons_of_mem p hq))
    simp only [List.foldr_cons]
    have hidx := indexList_append (ps.foldr (fun p acc => p ++ old ++ acc) l) _ _ hp
    rw [replaceList_all_of_index_some hold _ _ hidx]
    have hdrop : (p ++ old ++ ps.foldr (fun p acc => p ++ old ++ acc) l).drop
        (p.length + old.length) = ps.foldr (fun p acc => p ++ old ++ acc) l := by
      rw [← List.length_append, List.drop_left]
    rw [hdrop, hrest, List.append_assoc, List.take_left]

/-- Every text can be cut at the instances found from the left. -/
theorem exists_pieces {old : List Char} (hold : old ≠ []) :
    ∀ (n : Nat) (t : List Char), t.length ≤ n →
      ∃ (ps : List (List Char)) (l : List Char),
        t = ps.foldr (fun p acc => p ++ old ++ acc) l
        ∧ (∀ p ∈ ps, indexList old (p ++ old) = some p.length)
        ∧ indexList old l = none := by
  have hpos : 0 < old.length := List.length_pos.mpr hold
  intro n
  induction n with
  | zero =>
    intro t ht
    have hnil : t = [] := List.length_eq_zero.mp (Nat.le_zero.mp ht)
    subst hnil
    exact ⟨[], [], rfl, by simp, indexList_nil hold⟩
  | succ n ih =>
    intro t ht
    cases hidx : indexList old t with
    | none => exact ⟨[], t, rfl, by simp, hidx⟩
    | some j =>
      have hb := (indexList_bound t j hidx).2
      have hlen : (t.drop (j + old.length)).length ≤ n := by
        simp only [List.length_drop]; omega
      obtain ⟨ps, l, hrest, hps, hl⟩ := ih _ hlen
      refine ⟨t.take j :: ps, l, ?_, ?_, hl⟩
      · simp only [List.foldr_cons]
        rw [← hrest]
        exact indexList_split t j hidx
      · intro p hp
        simp only [List.mem_cons] at hp
        rcases hp with h | h
        · subst h; exact indexList_take t j hidx
        · exact hps p h

theorem joinWith_data (sep : String) (pieces : List String) (last : String) :
    (joinWith sep pieces last).data
      = (pieces.map String.data).foldr (fun p acc => p ++ sep.data ++ acc) last.data := by
  induction pieces with
  | nil => rfl
  | cons p ps ih =>
    have hcons : joinWith sep (p :: ps) last = p ++ sep ++ joinWith sep ps last := rfl
    rw [hcons]
    simp only [String.data_append, List.map_cons, List.foldr_cons, ih]

/-! ## Header lemmas -/

theorem lookup_filter_ne (k k' : String) (h : k' ≠ k) (l : List (String × List String)) :
    (l.filter (fun e => e.1 ≠ k)).lookup k' = l.lookup k' := by
  induction l with
  | nil => rfl
  | cons e es ih =>
    obtain ⟨a, v⟩ := e
    by_cases ha : a = k
    · subst ha
      have hk : (k' == a) = false := by simpa using h
      simpa [List.filter_cons, List.lookup_cons, hk] using ih
    · by_cases hka : k' = a
      · subst hka
        simp [List.filter_cons, List.lookup_cons, ha]
      · have hk : (k' == a) = false := by simpa using hka
        simpa [List.filter_cons, List.lookup_cons, ha, hk] using ih

theorem HTTPHeader.get_assign_self (h : HTTPHeader) (k : String) (v : List String) :
    (h.assign k v).get k = some v := by
  simp [HTTPHeader.get, HTTPHeader.assign, List.lookup_cons]

theorem HTTPHeader.get_assign_ne (h : HTTPHeader) (k : String) (v : List String)
    (k' : String) (hne : k' ≠ k) : (h.assign k v).get k' = h.get k' := by
  have hk : (k' == k) = false := by simpa using hne
  simp only [HTTPHeader.get, HTTPHeader.assign, List.lookup_cons, hk]
  exact lookup_filter_ne k k' hne h.entries

theorem lookup_eq_none_of_not_mem (k : String) (l : List (String × List String))
    (h : k ∉ l.map Prod.fst) : l.lookup k = none := by
  induction l with
  | nil => rfl
  | cons e es ih =>
    obtain ⟨a, v⟩ := e
    simp only [List.map_cons, List.mem_cons, not_or] at h
    have hk : (k == a) = false := by simpa using h.1
    simp [List.lookup_cons, hk, ih h.2]

theorem foldl_assign_get (es : List (String × List String))
    (hnd : (es.map Prod.fst).Nodup) (acc : HTTPHeader) (k : String) :
    (es.foldl (fun acc e => acc.assign e.1 e.2) acc).get k
      = match es.lookup k with
        | some v => some v
        | none => acc.get k := by
  induction es generalizing acc with
  | nil => rfl
  | cons e es ih =>
    obtain ⟨a, v⟩ := e
    simp only [List.map_cons, List.nodup_cons] at hnd
    rw [List.foldl_cons, ih hnd.2]
    by_cases hk : k = a
    · subst hk
      simp [List.lookup_cons, lookup_eq_none_of_not_mem k es hnd.1,
        HTTPHeader.get_assign_self]
    · have hk' : (k == a) = false := by simpa using hk
      simp only [List.lookup_cons, hk', HTTPHeader.get_assign_ne acc a v k hk]

/-- The copy loop into a fresh map yields a map with the bindings of the source. -/
theorem copyHeader_get (src : HTTPHeader) (k : String) :
    (copyHeader src HTTPHeader.make).get k = src.get k := by
  unfold copyHeader
  rw [foldl_assign_get src.entries src.nodupKeys]
  cases h : src.entries.lookup k with
  | none => simp [HTTPHeader.get, HTTPHeader.make, h]
  | some v => simp [HTTPHeader.get, h]

/-- The requests that `proxyRequest` hands to the HTTP client: none when the
body cannot be read or `http.NewRequest` fails, otherwise exactly one. -/
theorem proxyRequest_outbound (w : World) (s b : String) (r : Request) :
    (proxyRequest w s b r).2
      = match r.Body with
        | .error _ => []
        | .ok body =>
          match NewRequest w r.Method (targetURL s b r.RequestURI) body with
          | .error _ => []
          | .ok q => [{ q with Header := copyHeader r.Header HTTPHeader.make }] := by
  unfold proxyRequest
  cases r.Body with
  | error e => rfl
  | ok body =>
    simp only
    cases NewRequest w r.Method (targetURL s b r.RequestURI) body with
    | error e => rfl
    | ok q =>
      simp only
      cases w.Do { q with Header := copyHeader r.Header HTTPHeader.make } with
      | error e => rfl
      | ok resp =>
        simp only
        cases resp.Body <;> rfl

/-! ## Request proxy: the target URL -/

/-- C1: for a base URL `b` that begins with `http` and a service name `s` such
that `s ++ "/"` occurs exactly once in `b ++ "/" ++ s ++ "/" ++ r`, the target URL
computed for the request URI `"/" ++ s ++ "/" ++ r` is `b ++ "/" ++ r`, and this
is the URL of every request that `proxyRequest` hands to the HTTP client. -/
theorem targetURL_strips_service_segment (s b r : String)
    (hb : HasPrefix b "http" = true)
    (hocc : occurrences (b ++ "/" ++ s ++ "/" ++ r) (s ++ "/") = 1) :
    targetURL s b ("/" ++ s ++ "/" ++ r) = b ++ "/" ++ r
    ∧ ∀ (w : World) (req : Request), req.RequestURI = "/" ++ s ++ "/" ++ r →
        ∀ q ∈ (proxyRequest w s b req).2, q.URL = b ++ "/" ++ r := by
  have hurl : targetURL s b ("/" ++ s ++ "/" ++ r) = b ++ "/" ++ r := by
    have hocc' : occurrencesList (s ++ "/").data
        ((b.data ++ ['/']) ++ ((s ++ "/").data ++ r.data)) = 1 := by
      have := hocc
      simp only [occurrences, String.data_append, List.append_assoc] at this
      simpa only [String.data_append, List.append_assoc] using this
    have hrep := replaceList_single_occurrence (serviceName_slash_ne_nil s)
      (b.data ++ ['/']) r.data hocc'
    unfold targetURL
    rw [composeURL_of_hasPrefix b _ hb]
    apply String.ext
    show replaceList (b ++ ("/" ++ s ++ "/" ++ r)).data (s ++ "/").data [] (-1) = _
    have hdata : (b ++ ("/" ++ s ++ "/" ++ r)).data
        = (b.data ++ ['/']) ++ ((s ++ "/").data ++ r.data) := by
      simp only [String.data_append, List.append_assoc]
    rw [hdata, hrep]
    simp only [String.data_append, List.append_assoc]
  refine ⟨hurl, ?_⟩
  intro w req hreq q hq
  unfold proxyRequest at hq
  rw [hreq, hurl] at hq
  cases hbody : req.Body with
  | error e => simp [hbody] at hq
  | ok body =>
    simp only [hbody] at hq
    cases hnew : NewRequest w req.Method (b ++ "/" ++ r) body with
    | error e => simp [hnew] at hq
    | ok q0 =>
      have hq0 : q0.URL = b ++ "/" ++ r := by
        rw [NewRequest_ok hnew]
      simp only [hnew] at hq
      cases hdo : w.Do { q0 with Header := copyHeader req.Header HTTPHeader.make } with
      | error e =>
        simp only [hdo, List.mem_singleton] at hq
        rw [hq]; exact hq0
      | ok resp =>
        simp only [hdo] at hq
        cases hrb : resp.Body with
        | error e =>
          simp only [hrb, List.mem_singleton] at hq
          rw [hq]; exact hq0
        | ok rb =>
          simp only [hrb, List.mem_singleton] at hq
          rw [hq]; exact hq0

/-- C1 (witness): service name `api/agenda`, base URL `http://agenda:9000`,
request URI `/api/agenda/sessions`. -/
theorem targetURL_strips_service_segment_witness :
    targetURL "api/agenda" "http://agenda:9000" ("/" ++ "api/agenda" ++ "/" ++ "sessions")
      = "http://agenda:9000" ++ "/" ++ "sessions" :=
  (targetURL_strips_service_segment "api/agenda" "http://agenda:9000" "sessions"
    (by decide) (by decide)).1

/-- C2 (counterexample): with service name `api/agenda`, base URL
`http://agenda:9000` and request URI `/api/agenda/api/agenda/x` the composed
URL holds `api/agenda/` twice; the target URL has lost both instances, whereas
removing only the first one would keep the second. -/
theorem targetURL_removes_later_occurrence :
    composeURL "http://agenda:9000" "/api/agenda/api/agenda/x"
      = "http://agenda:9000/api/agenda/api/agenda/x"
    ∧ targetURL "api/agenda" "http://agenda:9000" "/api/agenda/api/agenda/x"
      = "http://agenda:9000/x"
    ∧ removeFirstOccurrence (composeURL "http://agenda:9000" "/api/agenda/api/agenda/x")
        ("api/agenda" ++ "/") = "http://agenda:9000/api/agenda/x"
    ∧ targetURL "api/agenda" "http://agenda:9000" "/api/agenda/api/agenda/x"
      ≠ removeFirstOccurrence (composeURL "http://agenda:9000" "/api/agenda/api/agenda/x")
          ("api/agenda" ++ "/") := by
  decide

/-- C2 (amended): the target URL is the composed URL with every instance of
`s ++ "/"` removed, scanning from the left.  Whenever the composed URL is
`p0 ++ s/ ++ p1 ++ s/ ++ .. ++ pk ++ s/ ++ last`, cut at the instances found from
the left (in each `p ++ s/` the first instance is the one at the end, and
`last` holds none), the target URL is `p0 ++ p1 ++ .. ++ pk ++ last`: the first
instance and every later one are gone.  Every composed URL can be cut in this
way.  In particular: when `s ++ "/"` does not occur the composed URL is the
target URL; when its first instance is at position `j`, the target URL is the
text before `j` followed by the text behind that instance rewritten in the
same way; and when no instance is left behind the first one, the target URL
is the composed URL with just that first instance removed. -/
theorem targetURL_removes_every_occurrence (s b u : String) :
    (∀ (pieces : List String) (last : String),
        composeURL b u = joinWith (s ++ "/") pieces last →
        (∀ p ∈ pieces, Index (p ++ (s ++ "/")) (s ++ "/") = some p.length) →
        Index last (s ++ "/") = none →
        targetURL s b u = joinWith "" pieces last)
    ∧ (∃ (pieces : List String) (last : String),
        composeURL b u = joinWith (s ++ "/") pieces last
        ∧ (∀ p ∈ pieces, Index (p ++ (s ++ "/")) (s ++ "/") = some p.length)
        ∧ Index last (s ++ "/") = none)
    ∧ (Index (composeURL b u) (s ++ "/") = none → targetURL s b u = composeURL b u)
    ∧ (∀ j, Index (composeURL b u) (s ++ "/") = some j →
        targetURL s b u
          = ⟨(composeURL b u).data.take j⟩
            ++ Replace ⟨(composeURL b u).data.drop (j + (s ++ "/").data.length)⟩
                (s ++ "/") "" (-1))
    ∧ (∀ j, Index (composeURL b u) (s ++ "/") = some j →
        Index ⟨(composeURL b u).data.drop (j + (s ++ "/").data.length)⟩ (s ++ "/") = none →
        targetURL s b u = removeFirstOccurrence (composeURL b u) (s ++ "/")) := by
  have hold := serviceName_slash_ne_nil s
  have hsome : ∀ j, Index (composeURL b u) (s ++ "/") = some j →
      targetURL s b u
        = ⟨(composeURL b u).data.take j⟩
          ++ Replace ⟨(composeURL b u).data.drop (j + (s ++ "/").data.length)⟩
              (s ++ "/") "" (-1) := by
    intro j hj
    apply String.ext
    simp only [targetURL, Replace, String.data_append]
    exact replaceList_all_of_index_some hold _ j hj
  refine ⟨?_, ?_, ?_, hsome, ?_⟩
  · intro pieces last hcut hpieces hlast
    apply String.ext
    have hdata := congrArg String.data hcut
    rw [joinWith_data] at hdata
    have hps : ∀ p ∈ pieces.map String.data,
        indexList (s ++ "/").data (p ++ (s ++ "/").data) = some p.length := by
      intro p hp
      obtain ⟨q, hq, rfl⟩ := List.mem_map.mp hp
      have := hpieces q hq
      simpa only [Index, String.data_append] using this
    have hrep := replaceList_pieces hold last.data hlast (pieces.map String.data) hps
    show replaceList (composeURL b u).data (s ++ "/").data [] (-1) = _
    rw [hdata, hrep, joinWith_data]
    have hempty : ("" : String).data = [] := rfl
    simp only [hempty, List.append_nil]
  · obtain ⟨ps, l, hcut, hps, hl⟩ :=
      exists_pieces hold (composeURL b u).data.length (composeURL b u).data (le_refl _)
    refine ⟨ps.map String.mk, ⟨l⟩, ?_, ?_, hl⟩
    · apply String.ext
      rw [joinWith_data, List.map_map]
      have hid : (String.data ∘ String.mk) = id := rfl
      rw [hid, List.map_id]
      exact hcut
    · intro p hp
      obtain ⟨q, hq, rfl⟩ := List.mem_map.mp hp
      have := hps q hq
      simpa only [Index, String.data_append] using this
  · intro h
    apply String.ext
    exact replaceList_all_of_index_none hold _ h
  · intro j hj hrest
    rw [hsome j hj]
    apply String.ext
    have hnone := replaceList_all_of_index_none hold _ hrest
    simp only [removeFirstOccurrence, hj, Replace, String.data_append] at hnone ⊢
    rw [hnone]

/-- C2 (amended, witness): the composed URL
`http://agenda:9000/api/agenda/api/agenda/x` is the pieces `http://agenda:9000/`
and the empty text, each followed by `api/agenda/`, and then `x`; the target URL
is `http://agenda:9000/` followed by the empty text and `x`. -/
theorem targetURL_removes_every_occurrence_witness :
    targetURL "api/agenda" "http://agenda:9000" "/api/agenda/api/agenda/x"
      = joinWith "" ["http://agenda:9000/", ""] "x"
    ∧ joinWith "" ["http://agenda:9000/", ""] "x" = "http://agenda:9000/x" :=
  ⟨(targetURL_removes_every_occurrence "api/agenda" "http://agenda:9000"
    "/api/agenda/api/agenda/x").1 ["http://agenda:9000/", ""] "x"
    (by decide) (by decide) (by decide), by decide⟩

/-- C3 (failing input): for the base URL `httpbin:8080`, which has no scheme,
the composed text begins with the four characters `http`, so no `http://` is
put in front of it and the URL that is rewritten and requested is
`httpbin:8080/sessions`; the base URL `agenda:9000` does get the prefix. -/
theorem composeURL_httpbin_not_prefixed :
    composeURL "httpbin:8080" "/api/agenda/sessions" = "httpbin:8080/api/agenda/sessions"
    ∧ composeURL "httpbin:8080" "/api/agenda/sessions"
        ≠ "http://" ++ "httpbin:8080" ++ "/api/agenda/sessions"
    ∧ targetURL "api/agenda" "httpbin:8080" "/api/agenda/sessions" = "httpbin:8080/sessions"
    ∧ composeURL "agenda:9000" "/api/agenda/sessions"
        = "http://agenda:9000/api/agenda/sessions" := by
  decide

/-! ## Request proxy: forwarding -/

theorem append_newline_ne_empty (err : String) : err ++ "\n" ≠ "" := by
  intro h
  have := congrArg String.length h
  simp only [String.length_append] at this
  have hlen : ("\n" : String).length = 1 := by decide
  have h0 : ("" : String).length = 0 := by decide
  omega

/-- C7: when the body is read, `http.NewRequest` accepts the request and the
call to the backend fails, `proxyRequest` answers with status 502 and the
error text followed by a newline (a non-empty body), has handed exactly one
request to the HTTP client, and the three proxy handlers leave `events` as
it was. -/
theorem proxyRequest_transport_failure (w : World) (s b : String) (r : Request)
    (body : Bytes) (q : ProxyReq) (err : String)
    (hbody : r.Body = .ok body)
    (hreq : NewRequest w r.Method (targetURL s b r.RequestURI) body = .ok q)
    (hdo : w.Do { q with Header := copyHeader r.Header HTTPHeader.make } = .error err) :
    (proxyRequest w s b r).1.StatusCode = 502
    ∧ (proxyRequest w s b r).1.Body = .text (err ++ "\n")
    ∧ err ++ "\n" ≠ ""
    ∧ (proxyRequest w s b r).2 = [{ q with Header := copyHeader r.Header HTTPHeader.make }]
    ∧ ∀ events : List Event,
        (serve w events (.agendaServiceHandler r)).events = events
        ∧ (serve w events (.c4PServiceHandler r)).events = events
        ∧ (serve w events (.notificationServiceHandler r)).events = events := by
  have hp : proxyRequest w s b r
      = (httpError HTTPHeader.make err 502,
          [{ q with Header := copyHeader r.Header HTTPHeader.make }]) := by
    unfold proxyRequest
    simp only [hbody, hreq, hdo]
  rw [hp]
  exact ⟨rfl, rfl, append_newline_ne_empty err, rfl, fun _ => ⟨rfl, rfl, rfl⟩⟩

/-- C7 (witness): the agenda request in the sample world, whose backend
cannot be reached. -/
theorem proxyRequest_transport_failure_witness :
    (proxyRequest sampleWorld "api/agenda" "http://agenda:9000" agendaRequest).1.StatusCode = 502
    ∧ (proxyRequest sampleWorld "api/agenda" "http://agenda:9000" agendaRequest).1.Body
        = .text ("dial tcp: connection refused" ++ "\n") :=
  have h := proxyRequest_transport_failure sampleWorld "api/agenda" "http://agenda:9000"
    agendaRequest []
    { Method := "GET"
      URL := targetURL "api/agenda" "http://agenda:9000" "/api/agenda/sessions"
      Header := HTTPHeader.make
      Body := [] }
    "dial tcp: connection refused" rfl rfl rfl
  ⟨h.1, h.2.1⟩

/-- C8: for an inbound request with method `m`, header map `H` and body bytes
`B`, every request that `proxyRequest` hands to the HTTP client has method `m`,
a header map with exactly the bindings of `H` (each key with the same list of
values) and the body `B`; and exactly one request is handed over when
`http.NewRequest` accepts method and target URL.  The method of a request
delivered by the HTTP server is never empty, which is the hypothesis `hm`. -/
theorem proxyRequest_forwards_verbatim (w : World) (s b : String) (r : Request) (B : Bytes)
    (hm : r.Method ≠ "") (hB : r.Body = .ok B) :
    (∀ q ∈ (proxyRequest w s b r).2,
        q.Method = r.Method ∧ (∀ k, q.Header.get k = r.Header.get k) ∧ q.Body = B)
    ∧ (w.newRequestError r.Method (targetURL s b r.RequestURI) = none →
        (proxyRequest w s b r).2.length = 1) := by
  rw [proxyRequest_outbound, hB]
  simp only
  cases hnew : NewRequest w r.Method (targetURL s b r.RequestURI) B with
  | error e =>
    refine ⟨by simp, ?_⟩
    intro hok
    simp [NewRequest, hm, hok] at hnew
  | ok q0 =>
    refine ⟨?_, fun _ => rfl⟩
    intro q hq
    simp only [List.mem_singleton] at hq
    subst hq
    rw [NewRequest_ok hnew]
    exact ⟨by simp [hm], fun k => copyHeader_get r.Header k, rfl⟩

/-- C8 (witness): the agenda request, with two header bindings. -/
theorem proxyRequest_forwards_verbatim_witness :
    (∀ q ∈ (proxyRequest sampleWorld "api/agenda" "http://agenda:9000" agendaRequest).2,
        q.Method = "GET"
        ∧ (∀ k, q.Header.get k = agendaRequest.Header.get k) ∧ q.Body = [])
    ∧ (proxyRequest sampleWorld "api/agenda" "http://agenda:9000" agendaRequest).2.length = 1 :=
  have h := proxyRequest_forwards_verbatim sampleWorld "api/agenda" "http://agenda:9000"
    agendaRequest [] (by decide) rfl
  ⟨h.1, h.2 rfl⟩

/-! ## Event receiver and event log -/

/-- With a non-nil event from the SDK, whatever the two errors are, `NewEvents`
appends the event left by `json.Unmarshal` and answers 200 with that event. -/
theorem NewEvents_of_event (w : World) (L : List Event) (r : Request) (ce : CloudEvent)
    (hce : (w.NewEventFromHTTPRequest r).1 = some ce) :
    NewEvents w L r
      = .ok (L ++ [(Unmarshal w ce.DataEncoded Event.zero).1],
          respondWithJSON 200 (.event (Unmarshal w ce.DataEncoded Event.zero).1)) := by
  unfold NewEvents
  cases hr : w.NewEventFromHTTPRequest r with
  | mk p e =>
    rw [hr] at hce
    simp only at hce
    subst hce
    rfl

/-- With a nil event from the SDK the handler panics. -/
theorem NewEvents_of_nil (w : World) (L : List Event) (r : Request)
    (hce : (w.NewEventFromHTTPRequest r).1 = none) :
    NewEvents w L r
      = .error "runtime error: invalid memory address or nil pointer dereference" := by
  unfold NewEvents
  cases hr : w.NewEventFromHTTPRequest r with
  | mk p e =>
    rw [hr] at hce
    simp only at hce
    subst hce
    rfl

/-- Data that is not valid JSON leaves the zero-valued event. -/
theorem Unmarshal_invalid (w : World) (data : Bytes) (err : String)
    (h : w.checkValid data = some err) :
    Unmarshal w data Event.zero = (Event.zero, some err) := by
  simp [Unmarshal, h]

/-- The lenient path of `NewEvents`: a non-nil event whose data cannot be
decoded is answered with 200, one entry is appended and echoed, and the entry
is the zero-valued event when the data is not valid JSON. -/
theorem NewEvents_undecodable_data (w : World) (L : List Event) (r : Request)
    (ce : CloudEvent) (hce : (w.NewEventFromHTTPRequest r).1 = some ce) :
    (∃ ev, NewEvents w L r = .ok (L ++ [ev], respondWithJSON 200 (.event ev)))
    ∧ (∀ err, w.checkValid ce.DataEncoded = some err →
        NewEvents w L r = .ok (L ++ [Event.zero], respondWithJSON 200 (.event Event.zero))) := by
  refine ⟨⟨_, NewEvents_of_event w L r ce hce⟩, ?_⟩
  intro err herr
  rw [NewEvents_of_event w L r ce hce, Unmarshal_invalid w _ err herr]

theorem serve_events (w : World) (L : List Event) (c : Call) :
    (serve w L c).events = L ++ (producedEvent w c).toList := by
  cases c with
  | NewEvents r =>
    cases hce : (w.NewEventFromHTTPRequest r).1 with
    | none => simp [serve, producedEvent, NewEvents_of_nil w L r hce, hce]
    | some ce => simp [serve, producedEvent, NewEvents_of_event w L r ce hce, hce]
  | _ => simp [serve, producedEvent]

/-- The log after a sequence of calls is the initial log followed by the
events of the receive calls, in the order of the calls. -/
theorem run_eq (w : World) (calls : List Call) :
    ∀ L : List Event, run w L calls = L ++ calls.filterMap (producedEvent w) := by
  induction calls with
  | nil => intro L; simp [run]
  | cons c cs ih =>
    intro L
    have hstep : run w L (c :: cs) = run w (serve w L c).events cs := rfl
    rw [hstep, ih, serve_events]
    cases hp : producedEvent w c with
    | none => simp [List.filterMap_cons, hp]
    | some e => simp [List.filterMap_cons, hp]

/-- C4: for a valid envelope (a non-nil event and no error from the SDK) whose
data decodes to `e` without error, `NewEvents` leaves the log `L ++ [e]`: one
entry longer, every earlier entry at its position, the new entry last, also
when `e` already occurs in `L`; the response is 200 with `e`. -/
theorem NewEvents_appends_decoded_event (w : World) (L : List Event) (r : Request)
    (ce : CloudEvent) (e : Event)
    (henv : w.NewEventFromHTTPRequest r = (some ce, none))
    (hdata : Unmarshal w ce.DataEncoded Event.zero = (e, none)) :
    NewEvents w L r = .ok (L ++ [e], respondWithJSON 200 (.event e))
    ∧ (serve w L (.NewEvents r)).events = L ++ [e]
    ∧ (serve w L (.NewEvents r)).events.length = L.length + 1
    ∧ (∀ i, i < L.length → (serve w L (.NewEvents r)).events[i]? = L[i]?)
    ∧ (serve w L (.NewEvents r)).events[L.length]? = some e
    ∧ (e ∈ L → (serve w L (.NewEvents r)).events.count e = L.count e + 1) := by
  have hce : (w.NewEventFromHTTPRequest r).1 = some ce := by rw [henv]
  have hnew : NewEvents w L r = .ok (L ++ [e], respondWithJSON 200 (.event e)) := by
    rw [NewEvents_of_event w L r ce hce, hdata]
  have hserve : (serve w L (.NewEvents r)).events = L ++ [e] := by
    simp [serve, hnew]
  rw [hserve]
  refine ⟨hnew, rfl, by simp, ?_, by simp, ?_⟩
  · intro i hi
    exact List.getElem?_append_left hi
  · intro _
    simp [List.count_append]

/-- C4 (witness): the log already holds the event with id 42, and a valid
envelope with the same event arrives. -/
theorem NewEvents_appends_decoded_event_witness :
    (serve sampleWorld [⟨"42", "talk", "proposal"⟩]
        (.NewEvents (cloudEventRequest [123, 125]))).events
      = [⟨"42", "talk", "proposal"⟩] ++ [⟨"42", "talk", "proposal"⟩] :=
  (NewEvents_appends_decoded_event sampleWorld [⟨"42", "talk", "proposal"⟩]
    (cloudEventRequest [123, 125]) ⟨[123, 125]⟩ ⟨"42", "talk", "proposal"⟩ rfl rfl).2.1

/-- C5 (counterexample): a notification whose envelope is parsed but whose
data (the two bytes `no`) is not valid JSON: the decoding reports an error,
and the log, empty before, holds the zero-valued event afterwards. -/
theorem NewEvents_appends_malformed_notification :
    (sampleWorld.NewEventFromHTTPRequest (cloudEventRequest [110, 111])).1 = some ⟨[110, 111]⟩
    ∧ (Unmarshal sampleWorld [110, 111] Event.zero).2
        = some "invalid character looking for beginning of value"
    ∧ (serve sampleWorld [] (.NewEvents (cloudEventRequest [110, 111]))).events = [Event.zero]
    ∧ (serve sampleWorld [] (.NewEvents (cloudEventRequest [110, 111]))).events ≠ [] := by
  refine ⟨rfl, rfl, rfl, ?_⟩
  intro h
  have h1 : (serve sampleWorld [] (.NewEvents (cloudEventRequest [110, 111]))).events
      = [Event.zero] := rfl
  rw [h1] at h
  cases h

theorem producedEvent_length (w : World) (rs : List Request)
    (hce : ∀ r ∈ rs, (w.NewEventFromHTTPRequest r).1 ≠ none) :
    ((rs.map Call.NewEvents).filterMap (producedEvent w)).length = rs.length := by
  induction rs with
  | nil => rfl
  | cons r rs ih =>
    have hr := hce r (List.mem_cons_self r rs)
    have hrs : ∀ r' ∈ rs, (w.NewEventFromHTTPRequest r').1 ≠ none :=
      fun r' h' => hce r' (List.mem_cons_of_mem r h')
    cases hp : (w.NewEventFromHTTPRequest r).1 with
    | none => exact absurd hp hr
    | some ce =>
      simp only [List.map_cons, List.filterMap_cons, producedEvent, hp, List.length_cons]
      rw [ih hrs]

/-- C5 (amended): every receive call for which the SDK returned an event
appends exactly one entry, whether or not its data could be decoded: after a
sequence of such calls the log is the earlier log followed by one entry per
call, in the order of the calls. -/
theorem receive_calls_append_one_entry_each (w : World) (L : List Event) (rs : List Request)
    (hce : ∀ r ∈ rs, (w.NewEventFromHTTPRequest r).1 ≠ none) :
    run w L (rs.map Call.NewEvents)
      = L ++ (rs.map Call.NewEvents).filterMap (producedEvent w)
    ∧ (run w L (rs.map Call.NewEvents)).length = L.length + rs.length := by
  have hrun := run_eq w (rs.map Call.NewEvents) L
  refine ⟨hrun, ?_⟩
  rw [hrun, List.length_append, producedEvent_length w rs hce]

/-- C5 (amended, witness): a well-formed notification followed by one whose
data is not valid JSON; both are appended. -/
theorem receive_calls_append_one_entry_each_witness :
    (run sampleWorld [] ([cloudEventRequest [123, 125], cloudEventRequest [110, 111]].map
        Call.NewEvents)).length = 0 + 2 :=
  (receive_calls_append_one_entry_each sampleWorld []
    [cloudEventRequest [123, 125], cloudEventRequest [110, 111]]
    (by
      intro r hr
      simp only [List.mem_cons, List.mem_singleton, List.not_mem_nil, or_false] at hr
      rcases hr with h | h <;> subst h <;> exact Option.some_ne_none _)).2

/-- C6 (failing input): a request without CloudEvents headers; the SDK returns
a nil event and an error, the handler logs the error, dereferences the nil
event and panics: there is no response and nothing is appended. -/
theorem NewEvents_unparsed_envelope_panics :
    sampleWorld.NewEventFromHTTPRequest plainRequest = (none, some "unknown Message encoding")
    ∧ NewEvents sampleWorld [] plainRequest
        = .error "runtime error: invalid memory address or nil pointer dereference"
    ∧ (serve sampleWorld [] (.NewEvents plainRequest)).response.isNone = true
    ∧ (serve sampleWorld [] (.NewEvents plainRequest)).events = [] := by
  exact ⟨rfl, rfl, rfl, rfl⟩

/-! ## Event readers -/

/-- C9: after any sequence of calls served from the empty log, the log is the
list of the events the receive calls produced, in the order of the calls;
each of the three event reads answers with status 200, the content type
`application/json` and a body that is the JSON encoding of exactly that list,
and leaves the log as it is; and whatever calls follow, the log keeps it as
a prefix. -/
theorem event_reads_return_log (w : World) (calls : List Call) (r : Request) :
    run w [] calls = calls.filterMap (producedEvent w)
    ∧ (serve w (run w [] calls) (.eventsHandler r)).response.map
          (fun resp => (resp.StatusCode, resp.Body))
        = some (200, ResponseBody.json (.events (calls.filterMap (producedEvent w))))
    ∧ (serve w (run w [] calls) (.GetEventsWithGet r)).response.map
          (fun resp => (resp.StatusCode, resp.Body))
        = some (200, ResponseBody.json (.events (calls.filterMap (producedEvent w))))
    ∧ (serve w (run w [] calls) (.GetEventsWithPost r)).response.map
          (fun resp => (resp.StatusCode, resp.Body))
        = some (200, ResponseBody.json (.events (calls.filterMap (producedEvent w))))
    ∧ (serve w (run w [] calls) (.eventsHandler r)).response.map
          (fun resp => resp.Header.get "Content-Type") = some (some ["application/json"])
    ∧ (serve w (run w [] calls) (.GetEventsWithGet r)).response.map
          (fun resp => resp.Header.get "Content-Type") = some (some ["application/json"])
    ∧ (serve w (run w [] calls) (.GetEventsWithPost r)).response.map
          (fun resp => resp.Header.get "Content-Type") = some (some ["application/json"])
    ∧ (serve w (run w [] calls) (.eventsHandler r)).events = run w [] calls
    ∧ (serve w (run w [] calls) (.GetEventsWithGet r)).events = run w [] calls
    ∧ (serve w (run w [] calls) (.GetEventsWithPost r)).events = run w [] calls
    ∧ ∀ more : List Call, run w [] calls <+: run w [] (calls ++ more) := by
  have hrun : run w [] calls = calls.filterMap (producedEvent w) := by
    rw [run_eq]; rfl
  refine ⟨hrun, ?_, ?_, ?_, rfl, rfl, rfl, rfl, rfl, rfl, ?_⟩
  · rw [← hrun]; rfl
  · rw [← hrun]; rfl
  · rw [← hrun]; rfl
  · intro more
    rw [run_eq, run_eq]
    simp only [List.nil_append, List.filterMap_append]
    exact List.prefix_append _ _

/-! ## Feature handler -/

/-- C10: both values of the feature response come from the environment key
`FEATURE_DEBUG_ENABLED`: set to `v` (the empty string included), the response
has status 200 and a body that is the JSON encoding of the features with
`DebugEnabled = v` and `GenerateProposal = v`; not set, the response has
status 200 and a body that is the JSON encoding of the features with
`DebugEnabled = "false"` and `GenerateProposal = "GENERATE"`; and two
environments that agree on this key give the same `GenerateProposal` and the
same response body. -/
theorem featureHandler_reads_single_key (w : World) :
    (∀ v, w.LookupEnv "FEATURE_DEBUG_ENABLED" = some v →
        (featureHandler w).StatusCode = 200
        ∧ (featureHandler w).Body
            = ResponseBody.json (.features { DebugEnabled := v, GenerateProposal := v })
        ∧ (featureHandler w).Header.get "Content-Type" = some ["application/json"])
    ∧ (w.LookupEnv "FEATURE_DEBUG_ENABLED" = none →
        (featureHandler w).StatusCode = 200
        ∧ (featureHandler w).Body
            = ResponseBody.json
                (.features { DebugEnabled := "false", GenerateProposal := "GENERATE" })
        ∧ (featureHandler w).Header.get "Content-Type" = some ["application/json"])
    ∧ (∀ w' : World,
        w'.LookupEnv "FEATURE_DEBUG_ENABLED" = w.LookupEnv "FEATURE_DEBUG_ENABLED" →
        FeatureGenerateProposal w' = FeatureGenerateProposal w
        ∧ (featureHandler w').Body = (featureHandler w).Body) := by
  refine ⟨?_, ?_, ?_⟩
  · intro v hv
    refine ⟨rfl, ?_, rfl⟩
    simp [featureHandler, respondWithJSON, FeatureDebugEnabled, FeatureGenerateProposal,
      getEnv, hv]
  · intro hv
    refine ⟨rfl, ?_, rfl⟩
    simp [featureHandler, respondWithJSON, FeatureDebugEnabled, FeatureGenerateProposal,
      getEnv, hv]
  · intro w' h
    simp [featureHandler, respondWithJSON, FeatureDebugEnabled, FeatureGenerateProposal,
      getEnv, h]

/-- C10 (witness): `FEATURE_DEBUG_ENABLED` set to the empty string, and not set. -/
theorem featureHandler_reads_single_key_witness :
    (featureHandler (sampleWorldWithDebug "")).Body
        = ResponseBody.json (.features { DebugEnabled := "", GenerateProposal := "" })
    ∧ (featureHandler sampleWorld).Body
        = ResponseBody.json
            (.features { DebugEnabled := "false", GenerateProposal := "GENERATE" }) :=
  ⟨((featureHandler_reads_single_key (sampleWorldWithDebug "")).1 "" rfl).2.1,
   ((featureHandler_reads_single_key sampleWorld).2.1 rfl).2.1⟩

/-- With `FEATURE_DEBUG_ENABLED=true` the response carries `GenerateProposal =
"true"`, which is none of the values `PUBLIC`, `GENERATE`, `GENERATE_ONLY` that
the comment at lines 38-41 lists for `FeatureGenerateProposal`. -/
theorem featureHandler_generateProposal_from_debug_key :
    (featureHandler (sampleWorldWithDebug "true")).Body
        = ResponseBody.json (.features { DebugEnabled := "true", GenerateProposal := "true" })
    ∧ FeatureGenerateProposal (sampleWorldWithDebug "true")
        ∉ ["PUBLIC", "GENERATE", "GENERATE_ONLY"] := by
  decide

end Frontend
